import Mathlib

/-!
Verification of the Battery simulator (battery.py, battery/applications.py,
battery/dimensioning.py).

Shallow embedding conventions:
* Python floats are modelled as rationals (ℚ); all arithmetic in the source
  is +, -, *, /, min, abs and comparisons, which ℚ models exactly.
* `pandas` timestamps are modelled as rationals counting minutes:
  `start_datetime` is a number and `pd.Timedelta(minutes = m)` is `+ m`.
* console output from `print(...)` calls inside the engine is modelled by an
  explicit `warning_log : List String` field that the operations append to,
  exactly where the source prints.
* `raise ValueError(...)` is modelled with `Except String`.
-/

namespace BatterySim

/-- The mutable state of `class Battery` (battery.py).  The fields mirror the
attributes set in `Battery.__init__`: ratings, the two efficiencies, the
current state of charge, the timestep, and the four parallel history lists.
The `applications`/`dimensioning` sub-objects are stateless wrappers around
the battery and are modelled as plain functions below. -/
structure Battery where
  power : ℚ
  capacity : ℚ
  eff_chg : ℚ
  eff_dch : ℚ
  soc : ℚ
  timestep_minutes : ℚ
  efc : ℚ
  power_curve : List ℚ
  soc_curve : List ℚ
  datetime_curve : List ℚ
  energy_curve : List ℚ
  start_datetime : ℚ
  warning_log : List String
deriving Repr, DecidableEq

/-- `Battery.__init__(max_power, net_capacity, round_trip_efficiency,
initial_soc, timestep_minutes)`.  The source computes
`np.sqrt(round_trip_efficiency)` for both efficiencies; since ℚ has no square
root, the embedding takes that square root `sqrt_rte` as the parameter.
Note: the source sets `self.soc = 0.5` literally — the `initial_soc`
argument is accepted but never used. -/
def Battery.init (max_power net_capacity sqrt_rte initial_soc timestep_minutes : ℚ) : Battery :=
  { power := max_power
    capacity := net_capacity
    eff_chg := sqrt_rte
    eff_dch := sqrt_rte
    soc := 1/2
    timestep_minutes := timestep_minutes
    efc := 0
    power_curve := []
    soc_curve := []
    datetime_curve := []
    energy_curve := []
    start_datetime := 0
    warning_log := [] }

/-- `Battery.reset`: clears the four history lists, sets soc to 0.5 and efc
to 0; ratings, efficiencies, timestep and start time are untouched. -/
def Battery.reset (b : Battery) : Battery :=
  { b with
    power_curve := []
    soc_curve := []
    energy_curve := []
    datetime_curve := []
    soc := 1/2
    efc := 0 }

/-- Python's `lst[-1]` on the lists used here (always called on a non-empty
list in the source); defaults to 0 on the empty list. -/
def lastD (l : List ℚ) : ℚ := l.getLast?.getD 0

/-- The timestamp appended by every engine operation: `start_datetime` when
the datetime list is empty, otherwise the last timestamp plus the timestep. -/
def Battery.nextDatetime (b : Battery) : ℚ :=
  match b.datetime_curve.getLast? with
  | none => b.start_datetime
  | some d => d + b.timestep_minutes

/-- `Battery.charge_with_energy(energy, warnings_on)`: clamps the request to
`min((1-soc)*capacity/eff_chg, power*eff_chg*timestep/60)` from above and to
0 from below, appends one record to each of the four history lists (the soc
list receives the pre-call soc), and advances the soc by
`charging_energy*eff_chg/capacity`. -/
def Battery.charge_with_energy (b : Battery) (energy : ℚ) (warnings_on : Bool) : Battery :=
  let specified_charging_energy := energy
  let max_possible_charging_energy_soc := (1 - b.soc) * b.capacity / b.eff_chg
  let max_possible_charging_energy_power := b.power * b.eff_chg * b.timestep_minutes / 60
  let max_possible_charging_energy :=
    min max_possible_charging_energy_soc max_possible_charging_energy_power
  let charging_energy :=
    if specified_charging_energy > max_possible_charging_energy then
      max_possible_charging_energy
    else if specified_charging_energy < 0 then 0
    else specified_charging_energy
  let log :=
    if specified_charging_energy > max_possible_charging_energy then
      if warnings_on then
        b.warning_log ++ ["Specified energy exceeds technical limit. Amount is reduced."]
      else b.warning_log
    else if specified_charging_energy < 0 then
      if warnings_on then
        b.warning_log ++ ["Specified energy must be a positive value. Value set to 0."]
      else b.warning_log
    else b.warning_log
  let charging_power := charging_energy * 60 / b.timestep_minutes
  { b with
    datetime_curve := b.datetime_curve ++ [b.nextDatetime]
    power_curve := b.power_curve ++ [charging_power]
    energy_curve := b.energy_curve ++ [charging_power * b.timestep_minutes / 60]
    soc_curve := b.soc_curve ++ [b.soc]
    soc := b.soc + charging_energy * b.eff_chg / b.capacity
    warning_log := log }

/-- `Battery.charge_with_power`: converts power to per-step energy and
delegates to `charge_with_energy`. -/
def Battery.charge_with_power (b : Battery) (power : ℚ) (warnings_on : Bool) : Battery :=
  b.charge_with_energy (power * b.timestep_minutes / 60) warnings_on

/-- `Battery.charge_max_possible`: charge with the rated power, warnings off. -/
def Battery.charge_max_possible (b : Battery) : Battery :=
  b.charge_with_power b.power false

/-- `Battery.discharge_with_energy(energy, warnings_on)`: clamps the request
to `min(soc*capacity*eff_dch, power*timestep/60)` from above and 0 from
below, appends one record to each history list (power and energy negated),
and lowers the soc by `discharging_energy/(capacity*eff_dch)`. -/
def Battery.discharge_with_energy (b : Battery) (energy : ℚ) (warnings_on : Bool) : Battery :=
  let specified_discharging_energy := energy
  let max_possible_discharging_energy_soc := b.soc * b.capacity * b.eff_dch
  let max_possible_discharging_energy_power := b.power * b.timestep_minutes / 60
  let max_possible_discharging_energy :=
    min max_possible_discharging_energy_soc max_possible_discharging_energy_power
  let discharging_energy :=
    if specified_discharging_energy > max_possible_discharging_energy then
      max_possible_discharging_energy
    else if specified_discharging_energy < 0 then 0
    else specified_discharging_energy
  let log :=
    if specified_discharging_energy > max_possible_discharging_energy then
      if warnings_on then
        b.warning_log ++ ["Specified energy exceeds technical limit. Amount is reduced."]
      else b.warning_log
    else if specified_discharging_energy < 0 then
      if warnings_on then
        b.warning_log ++ ["Specified energy must be a positive value. Value set to 0."]
      else b.warning_log
    else b.warning_log
  let discharging_power := discharging_energy * 60 / b.timestep_minutes
  { b with
    datetime_curve := b.datetime_curve ++ [b.nextDatetime]
    power_curve := b.power_curve ++ [-discharging_power]
    energy_curve := b.energy_curve ++ [-(discharging_power * b.timestep_minutes / 60)]
    soc_curve := b.soc_curve ++ [b.soc]
    soc := b.soc - discharging_energy / (b.capacity * b.eff_dch)
    warning_log := log }

/-- `Battery.discharge_with_power`: converts power to per-step energy and
delegates to `discharge_with_energy`. -/
def Battery.discharge_with_power (b : Battery) (power : ℚ) (warnings_on : Bool) : Battery :=
  b.discharge_with_energy (power * b.timestep_minutes / 60) warnings_on

/-- `Battery.discharge_max_possible`: discharge with the rated power,
warnings off. -/
def Battery.discharge_max_possible (b : Battery) : Battery :=
  b.discharge_with_power b.power false

/-- `Battery.do_nothing`: `charge_with_power(0, warnings_on = False)`. -/
def Battery.do_nothing (b : Battery) : Battery :=
  b.charge_with_power 0 false

/-- `Battery.get_efc`: zips the soc list with its first element dropped
against the soc list with its last TWO elements dropped (`[1:]` against
`[:-2]`), sums the absolute differences and divides by 2; returns 0 when the
soc list has fewer than 2 entries. -/
def Battery.get_efc (b : Battery) : ℚ :=
  if b.soc_curve.length < 2 then 0
  else
    let soc_curve_drop_first := b.soc_curve.drop 1
    let soc_curve_drop_last := b.soc_curve.take (b.soc_curve.length - 2)
    let soc_curve_abs_diffs :=
      (soc_curve_drop_first.zip soc_curve_drop_last).map (fun p => |p.1 - p.2|)
    soc_curve_abs_diffs.sum / 2

/-- One row of the arbitrage transaction table (`df_arbitrage`). -/
structure Transaction where
  datetime : ℚ
  transaction_type : String
  price : ℚ
  volume : ℚ
  revenue : ℚ
deriving Repr, DecidableEq

/-- One iteration of the loop in `Applications.arbitrage`: charge and record
a buy row when the price is at or below the buy price, discharge and record a
sell row when it is at or above the sell price, otherwise do nothing and
record no row. -/
def arbStep (buy_price sell_price : ℚ) (st : Battery × List Transaction) (list_price : ℚ) :
    Battery × List Transaction :=
  if list_price ≤ buy_price then
    let b := st.1.charge_max_possible
    (b, st.2 ++ [{ datetime := lastD b.datetime_curve
                   transaction_type := "buy"
                   price := list_price
                   volume := lastD b.energy_curve / 1000
                   revenue := -(lastD b.energy_curve) * list_price / 1000 }])
  else if list_price ≥ sell_price then
    let b := st.1.discharge_max_possible
    (b, st.2 ++ [{ datetime := lastD b.datetime_curve
                   transaction_type := "sell"
                   price := list_price
                   volume := lastD b.energy_curve / 1000
                   revenue := -(lastD b.energy_curve) * list_price / 1000 }])
  else
    (st.1.do_nothing, st.2)

/-- `Applications.arbitrage(price_list, buy_price, sell_price)`: raises
`ValueError` when `buy_price >= sell_price` (before touching the battery —
the embedding returns `Except.error` and the caller keeps the unmodified
battery); otherwise folds `arbStep` over the prices and returns the driven
battery together with the transaction table. -/
def Applications.arbitrage (b : Battery) (price_list : List ℚ) (buy_price sell_price : ℚ) :
    Except String (Battery × List Transaction) :=
  if buy_price ≥ sell_price then
    Except.error "buy_price must be lower than sell_price"
  else
    Except.ok (price_list.foldl (arbStep buy_price sell_price) (b, []))

/-- The columns of `df_peakshaving`, as parallel lists the way the source
builds them. -/
structure PeakResult where
  datetime_list : List ℚ
  battery_power_list : List ℚ
  soc_list : List ℚ
  original_loadcurve : List ℚ
  new_loadcurve : List ℚ
deriving Repr, DecidableEq

/-- One iteration of the loop in `Applications.peakshaving`: discharge by the
excess when the load exceeds the limit, otherwise charge by the headroom;
then record the last datetime, power and soc entries of the battery curves. -/
def psStep (peak_limit : ℚ) (st : Battery × List ℚ × List ℚ × List ℚ) (load : ℚ) :
    Battery × List ℚ × List ℚ × List ℚ :=
  let b :=
    if load > peak_limit then st.1.discharge_with_power (load - peak_limit) false
    else st.1.charge_with_power (peak_limit - load) false
  (b, st.2.1 ++ [lastD b.datetime_curve], st.2.2.1 ++ [lastD b.power_curve],
    st.2.2.2 ++ [lastD b.soc_curve])

/-- `Applications.peakshaving(loadcurve, peak_limit)`: forces `soc = 1.0`,
folds `psStep` over the load curve, and returns the driven battery together
with the result table whose new load curve is
`loadcurve[i] + battery_power[i]`.  The source performs no post-hoc check on
the new load curve and prints nothing. -/
def Applications.peakshaving (b : Battery) (loadcurve : List ℚ) (peak_limit : ℚ) :
    Battery × PeakResult :=
  let st := loadcurve.foldl (psStep peak_limit) ({ b with soc := 1 }, [], [], [])
  (st.1,
    { datetime_list := st.2.1
      battery_power_list := st.2.2.1
      soc_list := st.2.2.2
      original_loadcurve := loadcurve
      new_loadcurve := (loadcurve.zip st.2.2.1).map (fun p => p.1 + p.2) })

/-- Python's `max(list)` (raises on `[]`; the embedding defaults to 0 and the
theorems assume a non-empty list). -/
def listMax : List ℚ → ℚ
  | [] => 0
  | x :: xs => xs.foldl max x

/-- Python's `min(list)` (raises on `[]`; the embedding defaults to 0 and the
theorems assume a non-empty list). -/
def listMin : List ℚ → ℚ
  | [] => 0
  | x :: xs => xs.foldl min x

/-- The contents of the summary string returned by
`Dimensioning.peakshaving`: the derived power and capacity ratings and the
equivalent full cycles of the final run. -/
structure DimResult where
  power : ℚ
  capacity : ℚ
  efc : ℚ
deriving Repr, DecidableEq

/-- `Dimensioning.peakshaving(loadcurve, peak_limit)`
(battery/dimensioning.py): derives the power rating
`ceil(max(loadcurve) - peak_limit)`, probes with soc 1.0 and the sentinel
capacity 1e6 after a reset, sizes the capacity as
`ceil((1.0 - min(recorded soc)) * 1e6)`, then resets and re-runs the
peak-shaving application with the final ratings. -/
def Dimensioning.peakshaving (b : Battery) (loadcurve : List ℚ) (peak_limit : ℚ) :
    Battery × DimResult :=
  let needed_power : ℚ := (⌈listMax loadcurve - peak_limit⌉ : ℤ)
  let b1 := { b.reset with soc := 1 }
  let b2 := { b1 with power := needed_power, capacity := 1000000 }
  let probe := Applications.peakshaving b2 loadcurve peak_limit
  let soc_diff := 1 - listMin probe.2.soc_list
  let needed_capacity : ℚ := (⌈soc_diff * 1000000⌉ : ℤ)
  let b4 := { probe.1 with capacity := needed_capacity }
  let final := Applications.peakshaving b4.reset loadcurve peak_limit
  (final.1, { power := needed_power, capacity := needed_capacity, efc := final.1.get_efc })

/-- The seven engine operations, as one type, for stating history
invariants about arbitrary operation sequences. -/
inductive Op where
  | chargeE (energy : ℚ) (warnings_on : Bool)
  | chargeP (power : ℚ) (warnings_on : Bool)
  | chargeMax
  | dischargeE (energy : ℚ) (warnings_on : Bool)
  | dischargeP (power : ℚ) (warnings_on : Bool)
  | dischargeMax
  | idle
deriving Repr, DecidableEq

/-- Apply one engine operation to the battery. -/
def applyOp (b : Battery) : Op → Battery
  | Op.chargeE e w => b.charge_with_energy e w
  | Op.chargeP p w => b.charge_with_power p w
  | Op.chargeMax => b.charge_max_possible
  | Op.dischargeE e w => b.discharge_with_energy e w
  | Op.dischargeP p w => b.discharge_with_power p w
  | Op.dischargeMax => b.discharge_max_possible
  | Op.idle => b.do_nothing

/-- Run a sequence of engine operations. -/
def runOps (b : Battery) (ops : List Op) : Battery := ops.foldl applyOp b

/-- The charging ceiling `min((1-soc)*capacity/eff_chg,
power*eff_chg*timestep/60)` computed by `charge_with_energy`. -/
def chargeCeil (b : Battery) : ℚ :=
  min ((1 - b.soc) * b.capacity / b.eff_chg) (b.power * b.eff_chg * b.timestep_minutes / 60)

/-- The discharging ceiling `min(soc*capacity*eff_dch, power*timestep/60)`
computed by `discharge_with_energy`. -/
def dischargeCeil (b : Battery) : ℚ :=
  min (b.soc * b.capacity * b.eff_dch) (b.power * b.timestep_minutes / 60)

/-- The clamping rule shared by both engine operations: requests above the
ceiling are cut to the ceiling, negative requests to 0. -/
def clampE (e m : ℚ) : ℚ :=
  if e > m then m else if e < 0 then 0 else e

/-- The timestamp sequence the engine produces: `start + i * timestep`. -/
def expectedTimes (start t : ℚ) (n : ℕ) : List ℚ :=
  (List.range n).map (fun i : ℕ => start + (i : ℚ) * t)

/-- The state of charge lies in the unit interval. -/
def socInUnit (b : Battery) : Prop := 0 ≤ b.soc ∧ b.soc ≤ 1

/-- A battery built with the constructor defaults (unit efficiency for easy
hand calculation), used for concrete witnesses. -/
def exB : Battery := Battery.init 1000 1000 1 (1/2) 60

/-- A battery whose only anomaly is a negative timestep: state of charge,
capacity, power and both efficiencies satisfy all the documented
constraints. -/
def negStepBattery : Battery :=
  { power := 1
    capacity := 1
    eff_chg := 1
    eff_dch := 1
    soc := 0
    timestep_minutes := -60
    efc := 0
    power_curve := []
    soc_curve := []
    datetime_curve := []
    energy_curve := []
    start_datetime := 0
    warning_log := [] }

/-- A small battery (1 kW, 1 kWh, unit efficiency) that cannot shave a
10 kW peak down to 5 kW: the concrete peak-shaving run that exceeds its
limit. -/
def weakB : Battery := Battery.init 1 1 1 (1/2) 60

lemma charge_with_energy_soc (b : Battery) (e : ℚ) (w : Bool) :
    (b.charge_with_energy e w).soc =
      b.soc + clampE e (chargeCeil b) * b.eff_chg / b.capacity := rfl

lemma charge_with_energy_soc_curve (b : Battery) (e : ℚ) (w : Bool) :
    (b.charge_with_energy e w).soc_curve = b.soc_curve ++ [b.soc] := rfl

lemma charge_with_energy_power_curve (b : Battery) (e : ℚ) (w : Bool) :
    (b.charge_with_energy e w).power_curve =
      b.power_curve ++ [clampE e (chargeCeil b) * 60 / b.timestep_minutes] := rfl

lemma charge_with_energy_energy_curve (b : Battery) (e : ℚ) (w : Bool) :
    (b.charge_with_energy e w).energy_curve =
      b.energy_curve ++
        [clampE e (chargeCeil b) * 60 / b.timestep_minutes * b.timestep_minutes / 60] := rfl

lemma charge_with_energy_datetime_curve (b : Battery) (e : ℚ) (w : Bool) :
    (b.charge_with_energy e w).datetime_curve = b.datetime_curve ++ [b.nextDatetime] := rfl

lemma discharge_with_energy_soc (b : Battery) (e : ℚ) (w : Bool) :
    (b.discharge_with_energy e w).soc =
      b.soc - clampE e (dischargeCeil b) / (b.capacity * b.eff_dch) := rfl

lemma discharge_with_energy_soc_curve (b : Battery) (e : ℚ) (w : Bool) :
    (b.discharge_with_energy e w).soc_curve = b.soc_curve ++ [b.soc] := rfl

lemma discharge_with_energy_power_curve (b : Battery) (e : ℚ) (w : Bool) :
    (b.discharge_with_energy e w).power_curve =
      b.power_curve ++ [-(clampE e (dischargeCeil b) * 60 / b.timestep_minutes)] := rfl

lemma discharge_with_energy_energy_curve (b : Battery) (e : ℚ) (w : Bool) :
    (b.discharge_with_energy e w).energy_curve =
      b.energy_curve ++
        [-(clampE e (dischargeCeil b) * 60 / b.timestep_minutes * b.timestep_minutes / 60)] := rfl

lemma discharge_with_energy_datetime_curve (b : Battery) (e : ℚ) (w : Bool) :
    (b.discharge_with_energy e w).datetime_curve = b.datetime_curve ++ [b.nextDatetime] := rfl

/-- The clamped energy is nonnegative and at most the first (soc-limited)
component of the ceiling, as soon as both components are nonnegative. -/
lemma clampE_nonneg_le {m₁ m₂ : ℚ} (e : ℚ) (h1 : 0 ≤ m₁) (h2 : 0 ≤ m₂) :
    0 ≤ clampE e (min m₁ m₂) ∧ clampE e (min m₁ m₂) ≤ m₁ := by
  unfold clampE
  split_ifs with h h'
  · exact ⟨le_min h1 h2, min_le_left _ _⟩
  · exact ⟨le_refl 0, h1⟩
  · exact ⟨not_lt.mp h', (not_lt.mp h).trans (min_le_left _ _)⟩

/-- Charging arithmetic: a charge bounded by the soc-limited ceiling keeps
the soc in `[0, 1]`. -/
lemma soc_after_charge {s c η ce : ℚ} (hs0 : 0 ≤ s) (hc : 0 < c) (he : 0 < η)
    (h0 : 0 ≤ ce) (hm : ce ≤ (1 - s) * c / η) :
    0 ≤ s + ce * η / c ∧ s + ce * η / c ≤ 1 := by
  constructor
  · have hnn : 0 ≤ ce * η / c := div_nonneg (mul_nonneg h0 he.le) hc.le
    linarith
  · have h := mul_le_mul_of_nonneg_right hm he.le
    rw [div_mul_cancel₀ _ he.ne'] at h
    have h2 : ce * η / c ≤ 1 - s := by
      rw [div_le_iff₀ hc]; linarith
    linarith

/-- Discharging arithmetic: a discharge bounded by the soc-limited ceiling
keeps the soc in `[0, 1]`. -/
lemma soc_after_discharge {s c η de : ℚ} (hs1 : s ≤ 1) (hc : 0 < c) (he : 0 < η)
    (h0 : 0 ≤ de) (hm : de ≤ s * c * η) :
    0 ≤ s - de / (c * η) ∧ s - de / (c * η) ≤ 1 := by
  have hcη : 0 < c * η := mul_pos hc he
  constructor
  · have h2 : de / (c * η) ≤ s := by
      rw [div_le_iff₀ hcη]; nlinarith
    linarith
  · have h2 : 0 ≤ de / (c * η) := div_nonneg h0 hcη.le
    linarith

lemma charge_soc_in_unit (b : Battery) (e : ℚ) (w : Bool)
    (hs0 : 0 ≤ b.soc) (hs1 : b.soc ≤ 1) (hc : 0 < b.capacity) (hp : 0 < b.power)
    (he : 0 < b.eff_chg) (ht : 0 ≤ b.timestep_minutes) :
    0 ≤ (b.charge_with_energy e w).soc ∧ (b.charge_with_energy e w).soc ≤ 1 := by
  rw [charge_with_energy_soc]
  have h1 : 0 ≤ (1 - b.soc) * b.capacity / b.eff_chg :=
    div_nonneg (mul_nonneg (by linarith) hc.le) he.le
  have h2 : 0 ≤ b.power * b.eff_chg * b.timestep_minutes / 60 :=
    div_nonneg (mul_nonneg (mul_nonneg hp.le he.le) ht) (by norm_num)
  obtain ⟨hge, hle⟩ := clampE_nonneg_le e h1 h2
  exact soc_after_charge hs0 hc he hge hle

lemma discharge_soc_in_unit (b : Battery) (e : ℚ) (w : Bool)
    (hs0 : 0 ≤ b.soc) (hs1 : b.soc ≤ 1) (hc : 0 < b.capacity) (hp : 0 < b.power)
    (he : 0 < b.eff_dch) (ht : 0 ≤ b.timestep_minutes) :
    0 ≤ (b.discharge_with_energy e w).soc ∧ (b.discharge_with_energy e w).soc ≤ 1 := by
  rw [discharge_with_energy_soc]
  have h1 : 0 ≤ b.soc * b.capacity * b.eff_dch :=
    mul_nonneg (mul_nonneg hs0 hc.le) he.le
  have h2 : 0 ≤ b.power * b.timestep_minutes / 60 :=
    div_nonneg (mul_nonneg hp.le ht) (by norm_num)
  obtain ⟨hge, hle⟩ := clampE_nonneg_le e h1 h2
  exact soc_after_discharge hs1 hc he hge hle

lemma applyOp_soc_curve (b : Battery) (op : Op) :
    (applyOp b op).soc_curve = b.soc_curve ++ [b.soc] := by
  cases op <;> rfl

lemma applyOp_datetime_curve (b : Battery) (op : Op) :
    (applyOp b op).datetime_curve = b.datetime_curve ++ [b.nextDatetime] := by
  cases op <;> rfl

lemma applyOp_power_curve (b : Battery) (op : Op) :
    ∃ x, (applyOp b op).power_curve = b.power_curve ++ [x] := by
  cases op <;> exact ⟨_, rfl⟩

lemma applyOp_energy_curve (b : Battery) (op : Op) :
    ∃ x, (applyOp b op).energy_curve = b.energy_curve ++ [x] := by
  cases op <;> exact ⟨_, rfl⟩

lemma applyOp_start_datetime (b : Battery) (op : Op) :
    (applyOp b op).start_datetime = b.start_datetime := by
  cases op <;> rfl

lemma applyOp_timestep (b : Battery) (op : Op) :
    (applyOp b op).timestep_minutes = b.timestep_minutes := by
  cases op <;> rfl

lemma runOps_nil (b : Battery) : runOps b [] = b := rfl

lemma runOps_cons (b : Battery) (op : Op) (ops : List Op) :
    runOps b (op :: ops) = runOps (applyOp b op) ops := rfl

lemma runOps_power_curve_length (ops : List Op) :
    ∀ b : Battery, (runOps b ops).power_curve.length = b.power_curve.length + ops.length := by
  induction ops with
  | nil => intro b; simp [runOps_nil]
  | cons op ops ih =>
    intro b
    obtain ⟨x, hx⟩ := applyOp_power_curve b op
    rw [runOps_cons, ih, hx]
    simp; omega

lemma runOps_energy_curve_length (ops : List Op) :
    ∀ b : Battery, (runOps b ops).energy_curve.length = b.energy_curve.length + ops.length := by
  induction ops with
  | nil => intro b; simp [runOps_nil]
  | cons op ops ih =>
    intro b
    obtain ⟨x, hx⟩ := applyOp_energy_curve b op
    rw [runOps_cons, ih, hx]
    simp; omega

lemma runOps_soc_curve_length (ops : List Op) :
    ∀ b : Battery, (runOps b ops).soc_curve.length = b.soc_curve.length + ops.length := by
  induction ops with
  | nil => intro b; simp [runOps_nil]
  | cons op ops ih =>
    intro b
    rw [runOps_cons, ih, applyOp_soc_curve]
    simp; omega

lemma runOps_datetime_curve_length (ops : List Op) :
    ∀ b : Battery, (runOps b ops).datetime_curve.length = b.datetime_curve.length + ops.length := by
  induction ops with
  | nil => intro b; simp [runOps_nil]
  | cons op ops ih =>
    intro b
    rw [runOps_cons, ih, applyOp_datetime_curve]
    simp; omega

lemma runOps_soc_curve_append (ops : List Op) :
    ∀ b : Battery, ∃ l, (runOps b ops).soc_curve = b.soc_curve ++ l := by
  induction ops with
  | nil => intro b; exact ⟨[], by simp [runOps_nil]⟩
  | cons op ops ih =>
    intro b
    obtain ⟨l, hl⟩ := ih (applyOp b op)
    exact ⟨b.soc :: l, by rw [runOps_cons, hl, applyOp_soc_curve]; simp⟩

/-- The soc recorded at offset `i` into the run is the soc of the battery
just before the i-th operation. -/
lemma runOps_soc_curve_getD (ops : List Op) :
    ∀ (b : Battery) (i : ℕ), i < ops.length →
      (runOps b ops).soc_curve.getD (b.soc_curve.length + i) 0 =
        (runOps b (ops.take i)).soc := by
  induction ops with
  | nil => intro b i hi; simp at hi
  | cons op ops ih =>
    intro b i hi
    rw [runOps_cons]
    cases i with
    | zero =>
      obtain ⟨l, hl⟩ := runOps_soc_curve_append ops (applyOp b op)
      rw [hl, applyOp_soc_curve, List.append_assoc,
        List.getD_append_right _ _ _ _ (by omega)]
      simp [runOps_nil]
    | succ i =>
      have h := ih (applyOp b op) i (by simpa using hi)
      rw [applyOp_soc_curve, List.length_append, List.length_singleton] at h
      have hidx : b.soc_curve.length + (i + 1) = b.soc_curve.length + 1 + i := by omega
      rw [List.take_succ_cons, hidx]
      exact h

lemma expectedTimes_succ (start t : ℚ) (n : ℕ) :
    expectedTimes start t (n + 1) = expectedTimes start t n ++ [start + n * t] := by
  simp [expectedTimes, List.range_succ]

lemma expectedTimes_length (start t : ℚ) (n : ℕ) :
    (expectedTimes start t n).length = n := by
  rw [expectedTimes, List.length_map, List.length_range]

lemma expectedTimes_getD (start t : ℚ) {n i : ℕ} (h : i < n) :
    (expectedTimes start t n).getD i 0 = start + i * t := by
  rw [List.getD_eq_getElem _ _ (by simpa [expectedTimes_length] using h)]
  simp only [expectedTimes, List.getElem_map, List.getElem_range]

/-- When the datetime list so far is `start, start+t, ...`, the next
appended timestamp continues the arithmetic progression. -/
lemma nextDatetime_expectedTimes (b : Battery) (k : ℕ)
    (hb : b.datetime_curve = expectedTimes b.start_datetime b.timestep_minutes k) :
    b.nextDatetime = b.start_datetime + k * b.timestep_minutes := by
  unfold Battery.nextDatetime
  cases k with
  | zero => rw [hb]; simp [expectedTimes]
  | succ k =>
    rw [hb, expectedTimes_succ, List.getLast?_concat]
    push_cast
    ring

lemma runOps_datetime_curve (ops : List Op) :
    ∀ (b : Battery) (k : ℕ),
      b.datetime_curve = expectedTimes b.start_datetime b.timestep_minutes k →
      (runOps b ops).datetime_curve =
        expectedTimes b.start_datetime b.timestep_minutes (k + ops.length) := by
  induction ops with
  | nil => intro b k hb; simpa [runOps_nil] using hb
  | cons op ops ih =>
    intro b k hb
    rw [runOps_cons]
    have hstep : (applyOp b op).datetime_curve =
        expectedTimes (applyOp b op).start_datetime (applyOp b op).timestep_minutes (k + 1) := by
      rw [applyOp_datetime_curve, applyOp_start_datetime, applyOp_timestep,
        nextDatetime_expectedTimes b k hb, hb, expectedTimes_succ]
    have h := ih (applyOp b op) (k + 1) hstep
    rw [applyOp_start_datetime, applyOp_timestep] at h
    rw [h]
    congr 1
    rw [List.length_cons]
    omega

lemma applyOp_power (b : Battery) (op : Op) : (applyOp b op).power = b.power := by
  cases op <;> rfl

lemma applyOp_capacity (b : Battery) (op : Op) : (applyOp b op).capacity = b.capacity := by
  cases op <;> rfl

lemma charge_max_possible_eq (b : Battery) : b.charge_max_possible = applyOp b Op.chargeMax := rfl

lemma discharge_max_possible_eq (b : Battery) :
    b.discharge_max_possible = applyOp b Op.dischargeMax := rfl

lemma do_nothing_eq (b : Battery) : b.do_nothing = applyOp b Op.idle := rfl

/-- With `warnings_on = False` the charge operation prints nothing. -/
lemma charge_with_energy_log_false (b : Battery) (e : ℚ) :
    (b.charge_with_energy e false).warning_log = b.warning_log := by
  simp only [Battery.charge_with_energy]
  split_ifs <;> simp_all

/-- With `warnings_on = False` the discharge operation prints nothing. -/
lemma discharge_with_energy_log_false (b : Battery) (e : ℚ) :
    (b.discharge_with_energy e false).warning_log = b.warning_log := by
  simp only [Battery.discharge_with_energy]
  split_ifs <;> simp_all

/-- The battery driven by one arbitrage iteration is the battery after one
of the three engine operations, selected by the price thresholds. -/
lemma arbStep_battery (buy sell : ℚ) (st : Battery × List Transaction) (p : ℚ) :
    (arbStep buy sell st p).1 =
      applyOp st.1 (if p ≤ buy then Op.chargeMax else if p ≥ sell then Op.dischargeMax
        else Op.idle) := by
  unfold arbStep
  split_ifs <;> rfl

/-- One arbitrage iteration emits a transaction row exactly when the price
is at or below the buy price or at or above the sell price. -/
lemma arbStep_rows_length (buy sell : ℚ) (st : Battery × List Transaction) (p : ℚ) :
    (arbStep buy sell st p).2.length =
      st.2.length + (if p ≤ buy ∨ sell ≤ p then 1 else 0) := by
  unfold arbStep
  by_cases h1 : p ≤ buy
  · simp [h1]
  · by_cases h2 : p ≥ sell
    · have hor : p ≤ buy ∨ sell ≤ p := Or.inr h2
      simp [h1, h2, hor]
    · have hor : ¬(p ≤ buy ∨ sell ≤ p) := fun h => h.elim h1 h2
      simp [h1, h2, hor]

lemma arbFold_power_curve_length (buy sell : ℚ) (prices : List ℚ) :
    ∀ st : Battery × List Transaction,
      ((prices.foldl (arbStep buy sell) st).1).power_curve.length =
        st.1.power_curve.length + prices.length := by
  induction prices with
  | nil => intro st; simp
  | cons p prices ih =>
    intro st
    rw [List.foldl_cons, ih, arbStep_battery]
    obtain ⟨x, hx⟩ := applyOp_power_curve st.1 _
    rw [hx]
    simp; omega

lemma arbFold_soc_curve_length (buy sell : ℚ) (prices : List ℚ) :
    ∀ st : Battery × List Transaction,
      ((prices.foldl (arbStep buy sell) st).1).soc_curve.length =
        st.1.soc_curve.length + prices.length := by
  induction prices with
  | nil => intro st; simp
  | cons p prices ih =>
    intro st
    rw [List.foldl_cons, ih, arbStep_battery, applyOp_soc_curve]
    simp; omega

lemma arbFold_energy_curve_length (buy sell : ℚ) (prices : List ℚ) :
    ∀ st : Battery × List Transaction,
      ((prices.foldl (arbStep buy sell) st).1).energy_curve.length =
        st.1.energy_curve.length + prices.length := by
  induction prices with
  | nil => intro st; simp
  | cons p prices ih =>
    intro st
    rw [List.foldl_cons, ih, arbStep_battery]
    obtain ⟨x, hx⟩ := applyOp_energy_curve st.1 _
    rw [hx]
    simp; omega

lemma arbFold_datetime_curve_length (buy sell : ℚ) (prices : List ℚ) :
    ∀ st : Battery × List Transaction,
      ((prices.foldl (arbStep buy sell) st).1).datetime_curve.length =
        st.1.datetime_curve.length + prices.length := by
  induction prices with
  | nil => intro st; simp
  | cons p prices ih =>
    intro st
    rw [List.foldl_cons, ih, arbStep_battery, applyOp_datetime_curve]
    simp; omega

lemma arbFold_rows_length (buy sell : ℚ) (prices : List ℚ) :
    ∀ st : Battery × List Transaction,
      ((prices.foldl (arbStep buy sell) st).2).length =
        st.2.length + prices.countP (fun p => decide (p ≤ buy ∨ sell ≤ p)) := by
  induction prices with
  | nil => intro st; simp
  | cons p prices ih =>
    intro st
    rw [List.foldl_cons, ih, arbStep_rows_length, List.countP_cons]
    simp only [decide_eq_true_eq]
    split_ifs <;> omega

/-- The battery driven by one peak-shaving iteration is the battery after
one of the two engine operations, selected by comparing the load with the
limit. -/
lemma psStep_battery (limit : ℚ) (st : Battery × List ℚ × List ℚ × List ℚ) (load : ℚ) :
    (psStep limit st load).1 =
      applyOp st.1 (if load > limit then Op.dischargeP (load - limit) false
        else Op.chargeP (limit - load) false) := by
  unfold psStep
  split_ifs <;> rfl

lemma applyOp_log_false (b : Battery) (p : ℚ) :
    ((applyOp b (Op.dischargeP p false)).warning_log = b.warning_log) ∧
    ((applyOp b (Op.chargeP p false)).warning_log = b.warning_log) := by
  constructor
  · exact discharge_with_energy_log_false b _
  · exact charge_with_energy_log_false b _

lemma psFold_warning_log (limit : ℚ) (l : List ℚ) :
    ∀ st : Battery × List ℚ × List ℚ × List ℚ,
      ((l.foldl (psStep limit) st).1).warning_log = st.1.warning_log := by
  induction l with
  | nil => intro st; simp
  | cons x xs ih =>
    intro st
    rw [List.foldl_cons, ih, psStep_battery]
    split_ifs
    · exact (applyOp_log_false st.1 _).1
    · exact (applyOp_log_false st.1 _).2

lemma psFold_power (limit : ℚ) (l : List ℚ) :
    ∀ st : Battery × List ℚ × List ℚ × List ℚ,
      ((l.foldl (psStep limit) st).1).power = st.1.power := by
  induction l with
  | nil => intro st; simp
  | cons x xs ih =>
    intro st
    rw [List.foldl_cons, ih, psStep_battery]
    split_ifs <;> rw [applyOp_power]

lemma psFold_capacity (limit : ℚ) (l : List ℚ) :
    ∀ st : Battery × List ℚ × List ℚ × List ℚ,
      ((l.foldl (psStep limit) st).1).capacity = st.1.capacity := by
  induction l with
  | nil => intro st; simp
  | cons x xs ih =>
    intro st
    rw [List.foldl_cons, ih, psStep_battery]
    split_ifs <;> rw [applyOp_capacity]

lemma psFold_socs_append (limit : ℚ) (l : List ℚ) :
    ∀ st : Battery × List ℚ × List ℚ × List ℚ,
      ∃ rest, (l.foldl (psStep limit) st).2.2.2 = st.2.2.2 ++ rest := by
  induction l with
  | nil => intro st; exact ⟨[], by simp⟩
  | cons x xs ih =>
    intro st
    obtain ⟨rest, hrest⟩ := ih (psStep limit st x)
    refine ⟨lastD ((psStep limit st x).1).soc_curve :: rest, ?_⟩
    rw [List.foldl_cons, hrest]
    unfold psStep
    split_ifs <;> simp

/-- The soc value recorded by one peak-shaving iteration is the pre-call
state of charge of the battery. -/
lemma psStep_recorded_soc (limit : ℚ) (st : Battery × List ℚ × List ℚ × List ℚ) (load : ℚ) :
    (psStep limit st load).2.2.2 = st.2.2.2 ++ [st.1.soc] := by
  have h : lastD ((psStep limit st load).1).soc_curve = st.1.soc := by
    rw [psStep_battery, applyOp_soc_curve]
    unfold lastD
    rw [List.getLast?_concat]
    rfl
  unfold psStep at h ⊢
  split_ifs at h ⊢ <;> simp_all

/-- Summing `|a[i] - c[i]|` over a zip of two lists is the range-indexed
sum of the absolute differences. -/
lemma sum_map_zip_abs (a : List ℚ) :
    ∀ c : List ℚ, ((a.zip c).map (fun p => |p.1 - p.2|)).sum =
      ∑ i in Finset.range (min a.length c.length), |a.getD i 0 - c.getD i 0| := by
  induction a with
  | nil => intro c; simp
  | cons x xs ih =>
    intro c
    cases c with
    | nil => simp
    | cons y ys =>
      simp only [List.zip_cons_cons, List.map_cons, List.sum_cons, List.length_cons]
      rw [ih ys]
      have hmin : min (xs.length + 1) (ys.length + 1) = min xs.length ys.length + 1 := by
        omega
      rw [hmin, Finset.sum_range_succ']
      simp [List.getD_cons_succ, List.getD_cons_zero, add_comm]

lemma getD_drop_one (l : List ℚ) (i : ℕ) : (l.drop 1).getD i 0 = l.getD (i + 1) 0 := by
  cases l <;> simp [List.getD_cons_succ]

lemma getD_take (l : List ℚ) (n i : ℕ) (h : i < n) : (l.take n).getD i 0 = l.getD i 0 := by
  rcases lt_or_ge i l.length with hi | hi
  · rw [List.getD_eq_getElem _ _ (by simp; omega), List.getD_eq_getElem _ _ hi,
      List.getElem_take]
  · rw [List.getD_eq_default _ _ (by simp; omega), List.getD_eq_default _ _ hi]

example :
    ((Battery.init 1000 1000 1 (1/2) 60).charge_with_energy 100 true).soc = 3/5 := by
  norm_num [Battery.init, Battery.charge_with_energy, min_def]

example :
    ({ Battery.init 1000 1000 1 (1/2) 60 with
        soc_curve := [1/2, 7/10, 3/10] } : Battery).get_efc = 1/10 := by
  norm_num [Battery.init, Battery.get_efc, abs_of_nonneg]

/-- C2: `charge_with_energy(e)` on a battery with soc `s`, capacity `c`,
charge efficiency `η`, rated power `p` and timestep `t`: the effective
charging energy is `min(e, (1-s)*c/η, p*η*t/60)` when `e` exceeds that
minimum, 0 when `e < 0`, and `e` otherwise; it appends the power
`eff*60/t`, the per-step energy `eff` and the pre-call soc, and then sets
the soc to `s + eff*η/c`. -/
theorem C2_charge_with_energy (b : Battery) (e : ℚ) (w : Bool)
    (ht : b.timestep_minutes ≠ 0) :
    ∃ eff,
      eff = (if e > min ((1 - b.soc) * b.capacity / b.eff_chg)
          (b.power * b.eff_chg * b.timestep_minutes / 60) then
          min e (min ((1 - b.soc) * b.capacity / b.eff_chg)
            (b.power * b.eff_chg * b.timestep_minutes / 60))
        else if e < 0 then 0 else e) ∧
      (b.charge_with_energy e w).power_curve =
        b.power_curve ++ [eff * 60 / b.timestep_minutes] ∧
      (b.charge_with_energy e w).energy_curve = b.energy_curve ++ [eff] ∧
      (b.charge_with_energy e w).soc_curve = b.soc_curve ++ [b.soc] ∧
      (b.charge_with_energy e w).soc = b.soc + eff * b.eff_chg / b.capacity := by
  have hcancel : ∀ x : ℚ, x * 60 / b.timestep_minutes * b.timestep_minutes / 60 = x := by
    intro x
    rw [div_mul_cancel₀ _ ht, mul_div_cancel_right₀ _ (by norm_num : (60:ℚ) ≠ 0)]
  refine ⟨clampE e (chargeCeil b), ?_, charge_with_energy_power_curve b e w, ?_,
    charge_with_energy_soc_curve b e w, charge_with_energy_soc b e w⟩
  · unfold clampE chargeCeil
    split_ifs with h
    · exact (min_eq_right (le_of_lt h)).symm
    · rfl
    · rfl
  · rw [charge_with_energy_energy_curve, hcancel]

theorem C2_witness :
    ((Battery.init 1000 1000 1 (1/2) 60).charge_with_energy 100 true).energy_curve
      = [100] := by
  obtain ⟨eff, heff, hpow, hen, hsc, hs⟩ :=
    C2_charge_with_energy (Battery.init 1000 1000 1 (1/2) 60) 100 true
      (by norm_num [Battery.init])
  subst heff
  rw [hen]
  norm_num [Battery.init, min_def]

/-- C3: `discharge_with_energy(e)` on a battery with soc `s`, capacity `c`,
discharge efficiency `η`, rated power `p` and timestep `t`: the effective
discharging energy is `min(e, s*c*η, p*t/60)` (the power ceiling carries no
efficiency factor) when `e` exceeds that minimum, 0 when `e < 0`, and `e`
otherwise; it appends the power `-(eff*60/t)`, the per-step energy `-eff`
and the pre-call soc, and then sets the soc to `s - eff/(c*η)`. -/
theorem C3_discharge_with_energy (b : Battery) (e : ℚ) (w : Bool)
    (ht : b.timestep_minutes ≠ 0) :
    ∃ eff,
      eff = (if e > min (b.soc * b.capacity * b.eff_dch)
          (b.power * b.timestep_minutes / 60) then
          min e (min (b.soc * b.capacity * b.eff_dch)
            (b.power * b.timestep_minutes / 60))
        else if e < 0 then 0 else e) ∧
      (b.discharge_with_energy e w).power_curve =
        b.power_curve ++ [-(eff * 60 / b.timestep_minutes)] ∧
      (b.discharge_with_energy e w).energy_curve = b.energy_curve ++ [-eff] ∧
      (b.discharge_with_energy e w).soc_curve = b.soc_curve ++ [b.soc] ∧
      (b.discharge_with_energy e w).soc =
        b.soc - eff / (b.capacity * b.eff_dch) := by
  have hcancel : ∀ x : ℚ, x * 60 / b.timestep_minutes * b.timestep_minutes / 60 = x := by
    intro x
    rw [div_mul_cancel₀ _ ht, mul_div_cancel_right₀ _ (by norm_num : (60:ℚ) ≠ 0)]
  refine ⟨clampE e (dischargeCeil b), ?_, discharge_with_energy_power_curve b e w, ?_,
    discharge_with_energy_soc_curve b e w, discharge_with_energy_soc b e w⟩
  · unfold clampE dischargeCeil
    split_ifs with h
    · exact (min_eq_right (le_of_lt h)).symm
    · rfl
    · rfl
  · rw [discharge_with_energy_energy_curve, hcancel]

theorem C3_witness :
    ((Battery.init 1000 1000 1 (1/2) 60).discharge_with_energy 100 true).energy_curve
      = [-100] := by
  obtain ⟨eff, heff, hpow, hen, hsc, hs⟩ :=
    C3_discharge_with_energy (Battery.init 1000 1000 1 (1/2) 60) 100 true
      (by norm_num [Battery.init])
  subst heff
  rw [hen]
  norm_num [Battery.init, min_def]

/-- C5: `get_efc` returns 0 for fewer than 2 soc records and otherwise half
the sum of `|soc[i+1] - soc[i]|` for `i` from 0 to `n-3`: the last
consecutive pair is excluded.  In particular the history `[0.5, 0.7, 0.3]`
yields 0.1 and a two-entry history yields 0. -/
theorem C5_get_efc :
    (∀ b : Battery,
      b.get_efc =
        if b.soc_curve.length < 2 then 0
        else (∑ i in Finset.range (b.soc_curve.length - 2),
          |b.soc_curve.getD (i + 1) 0 - b.soc_curve.getD i 0|) / 2) ∧
    ({ exB with soc_curve := [1/2, 7/10, 3/10] } : Battery).get_efc = 1/10 ∧
    ({ exB with soc_curve := [1/2, 7/10] } : Battery).get_efc = 0 := by
  refine ⟨?_, ?_, ?_⟩
  · intro b
    simp only [Battery.get_efc]
    split_ifs with h
    · rfl
    · push_neg at h
      congr 1
      rw [sum_map_zip_abs]
      have hlen : min (b.soc_curve.drop 1).length
          (b.soc_curve.take (b.soc_curve.length - 2)).length =
          b.soc_curve.length - 2 := by
        simp only [List.length_drop, List.length_take]
        omega
      rw [hlen]
      refine Finset.sum_congr rfl ?_
      intro i hi
      rw [getD_drop_one, getD_take _ _ _ (Finset.mem_range.mp hi)]
  · norm_num [exB, Battery.init, Battery.get_efc, abs_of_nonneg]
  · norm_num [exB, Battery.init, Battery.get_efc]

/-- C8: the constructor accepts an `initial_soc` argument but the
constructed battery's state of charge is the literal 0.5 regardless — here
`initial_soc = 0.8` yields `soc = 0.5`, while the other construction
parameters (rated power, net capacity, step length) are stored as passed. -/
theorem C8_init_ignores_initial_soc :
    (Battery.init 1000 1000 (96/100) (8/10) 60).soc = 1/2 ∧
    (Battery.init 1000 1000 (96/100) (8/10) 60).soc ≠ 8/10 ∧
    (Battery.init 1000 1000 (96/100) (8/10) 60).power = 1000 ∧
    (Battery.init 1000 1000 (96/100) (8/10) 60).capacity = 1000 ∧
    (Battery.init 1000 1000 (96/100) (8/10) 60).timestep_minutes = 60 := by
  exact ⟨rfl, by norm_num [Battery.init], rfl, rfl, rfl⟩

/-- C1 (counterexample): a battery satisfying every constraint the claim
lists — soc in [0,1], positive capacity and power, efficiencies in (0,1] —
but with a negative timestep leaves the unit interval after one
`charge_with_energy` call, so the claim as stated (with no constraint on the
timestep) is false. -/
theorem C1_counterexample :
    (0 ≤ negStepBattery.soc ∧ negStepBattery.soc ≤ 1 ∧
      0 < negStepBattery.capacity ∧ 0 < negStepBattery.power ∧
      0 < negStepBattery.eff_chg ∧ negStepBattery.eff_chg ≤ 1 ∧
      0 < negStepBattery.eff_dch ∧ negStepBattery.eff_dch ≤ 1) ∧
    (negStepBattery.charge_with_energy 1 true).soc < 0 := by
  constructor
  · norm_num [negStepBattery]
  · norm_num [negStepBattery, Battery.charge_with_energy, min_def]

/-- C1 (amended): for every battery whose state of charge lies in [0,1],
whose capacity and power are positive, whose efficiencies are in (0,1] and
whose timestep is positive, every engine operation leaves the state of
charge in [0,1], and every value an operation appends to the soc history
either was already in the history or lies in [0,1]. -/
theorem C1_soc_invariant (b : Battery)
    (hs0 : 0 ≤ b.soc) (hs1 : b.soc ≤ 1) (hc : 0 < b.capacity) (hp : 0 < b.power)
    (hec : 0 < b.eff_chg) (hec1 : b.eff_chg ≤ 1)
    (hed : 0 < b.eff_dch) (hed1 : b.eff_dch ≤ 1)
    (ht : 0 < b.timestep_minutes) :
    (∀ e w, socInUnit (b.charge_with_energy e w)) ∧
    (∀ p w, socInUnit (b.charge_with_power p w)) ∧
    socInUnit b.charge_max_possible ∧
    (∀ e w, socInUnit (b.discharge_with_energy e w)) ∧
    (∀ p w, socInUnit (b.discharge_with_power p w)) ∧
    socInUnit b.discharge_max_possible ∧
    socInUnit b.do_nothing ∧
    (∀ op : Op, ∀ x ∈ (applyOp b op).soc_curve, x ∈ b.soc_curve ∨ (0 ≤ x ∧ x ≤ 1)) := by
  have hch : ∀ e w, socInUnit (b.charge_with_energy e w) := fun e w =>
    charge_soc_in_unit b e w hs0 hs1 hc hp hec ht.le
  have hdch : ∀ e w, socInUnit (b.discharge_with_energy e w) := fun e w =>
    discharge_soc_in_unit b e w hs0 hs1 hc hp hed ht.le
  refine ⟨hch, fun p w => hch _ w, hch _ false, hdch, fun p w => hdch _ w,
    hdch _ false, hch _ false, ?_⟩
  intro op x hx
  rw [applyOp_soc_curve, List.mem_append, List.mem_singleton] at hx
  rcases hx with hx | hx
  · exact Or.inl hx
  · exact Or.inr ⟨hx ▸ hs0, hx ▸ hs1⟩

theorem C1_witness : socInUnit exB.do_nothing :=
  (C1_soc_invariant exB (by norm_num [exB, Battery.init]) (by norm_num [exB, Battery.init])
    (by norm_num [exB, Battery.init]) (by norm_num [exB, Battery.init])
    (by norm_num [exB, Battery.init]) (by norm_num [exB, Battery.init])
    (by norm_num [exB, Battery.init]) (by norm_num [exB, Battery.init])
    (by norm_num [exB, Battery.init])).2.2.2.2.2.2.1

/-- C4: after any sequence of `n` engine operations starting from a freshly
constructed or reset battery, all four history sequences have length `n`,
the soc recorded at index `i` is the state of charge immediately before the
i-th operation, and the timestamp at index `i` is the start timestamp plus
`i` timesteps. -/
theorem C4_history (b : Battery) (ops : List Op)
    (hb : (∃ p c sq s t, b = Battery.init p c sq s t) ∨ ∃ b₀ : Battery, b = b₀.reset) :
    (runOps b ops).power_curve.length = ops.length ∧
    (runOps b ops).soc_curve.length = ops.length ∧
    (runOps b ops).energy_curve.length = ops.length ∧
    (runOps b ops).datetime_curve.length = ops.length ∧
    (∀ i, i < ops.length →
      (runOps b ops).soc_curve.getD i 0 = (runOps b (ops.take i)).soc) ∧
    (∀ i, i < ops.length →
      (runOps b ops).datetime_curve.getD i 0 =
        b.start_datetime + i * b.timestep_minutes) := by
  have hempty : b.power_curve = [] ∧ b.soc_curve = [] ∧ b.energy_curve = [] ∧
      b.datetime_curve = [] := by
    rcases hb with ⟨p, c, sq, s, t, rfl⟩ | ⟨b₀, rfl⟩
    · exact ⟨rfl, rfl, rfl, rfl⟩
    · exact ⟨rfl, rfl, rfl, rfl⟩
  obtain ⟨hpw, hsc, hen, hdt⟩ := hempty
  have hdt0 : b.datetime_curve = expectedTimes b.start_datetime b.timestep_minutes 0 := by
    rw [hdt]; rfl
  refine ⟨?_, ?_, ?_, ?_, ?_, ?_⟩
  · rw [runOps_power_curve_length, hpw]; simp
  · rw [runOps_soc_curve_length, hsc]; simp
  · rw [runOps_energy_curve_length, hen]; simp
  · rw [runOps_datetime_curve_length, hdt]; simp
  · intro i hi
    have h := runOps_soc_curve_getD ops b i hi
    rwa [hsc, List.length_nil, Nat.zero_add] at h
  · intro i hi
    rw [runOps_datetime_curve ops b 0 hdt0, expectedTimes_getD _ _ (by omega)]

theorem C4_witness :
    (runOps (Battery.init 1000 1000 1 (1/2) 60) [Op.chargeMax, Op.idle]).soc_curve.length
      = 2 :=
  (C4_history (Battery.init 1000 1000 1 (1/2) 60) [Op.chargeMax, Op.idle]
    (Or.inl ⟨1000, 1000, 1, 1/2, 60, rfl⟩)).2.1

lemma peakshaving_battery_power (x : Battery) (l : List ℚ) (limit : ℚ) :
    (Applications.peakshaving x l limit).1.power = x.power := by
  unfold Applications.peakshaving
  exact psFold_power limit l _

lemma peakshaving_battery_capacity (x : Battery) (l : List ℚ) (limit : ℚ) :
    (Applications.peakshaving x l limit).1.capacity = x.capacity := by
  unfold Applications.peakshaving
  exact psFold_capacity limit l _

/-- C6: arbitrage fails (raises) exactly when `buy_price >= sell_price`, in
which case no result is produced (and, the embedding being pure, the
caller's battery is untouched); otherwise it succeeds, appends one record
to every battery history list per input price, emits one transaction row
per price at or below the buy price or at or above the sell price, and each
iteration charges and records a buy row, discharges and records a sell row,
or does nothing and records no row, with volume `energy/1000` and revenue
`-energy*price/1000`. -/
theorem C6_arbitrage (b : Battery) (prices : List ℚ) (buy sell : ℚ) :
    ((∃ res, Applications.arbitrage b prices buy sell = Except.ok res) ↔ buy < sell) ∧
    (buy ≥ sell → Applications.arbitrage b prices buy sell =
      Except.error "buy_price must be lower than sell_price") ∧
    (buy < sell → ∃ bf rows,
      Applications.arbitrage b prices buy sell = Except.ok (bf, rows) ∧
      bf.power_curve.length = b.power_curve.length + prices.length ∧
      bf.soc_curve.length = b.soc_curve.length + prices.length ∧
      bf.energy_curve.length = b.energy_curve.length + prices.length ∧
      bf.datetime_curve.length = b.datetime_curve.length + prices.length ∧
      rows.length = prices.countP (fun p => decide (p ≤ buy ∨ sell ≤ p))) ∧
    (∀ (st : Battery × List Transaction) (p : ℚ),
      (p ≤ buy → arbStep buy sell st p =
        (st.1.charge_max_possible, st.2 ++
          [{ datetime := lastD st.1.charge_max_possible.datetime_curve
             transaction_type := "buy"
             price := p
             volume := lastD st.1.charge_max_possible.energy_curve / 1000
             revenue := -(lastD st.1.charge_max_possible.energy_curve) * p / 1000 }])) ∧
      (¬ p ≤ buy → p ≥ sell → arbStep buy sell st p =
        (st.1.discharge_max_possible, st.2 ++
          [{ datetime := lastD st.1.discharge_max_possible.datetime_curve
             transaction_type := "sell"
             price := p
             volume := lastD st.1.discharge_max_possible.energy_curve / 1000
             revenue := -(lastD st.1.discharge_max_possible.energy_curve) * p / 1000 }])) ∧
      (¬ p ≤ buy → ¬ p ≥ sell → arbStep buy sell st p = (st.1.do_nothing, st.2))) := by
  refine ⟨?_, ?_, ?_, ?_⟩
  · constructor
    · rintro ⟨res, hres⟩
      by_contra hlt
      push_neg at hlt
      rw [Applications.arbitrage, if_pos hlt] at hres
      simp at hres
    · intro h
      rw [Applications.arbitrage, if_neg (not_le.mpr h)]
      exact ⟨_, rfl⟩
  · intro h
    rw [Applications.arbitrage, if_pos h]
  · intro h
    rw [Applications.arbitrage, if_neg (not_le.mpr h)]
    refine ⟨(prices.foldl (arbStep buy sell) (b, [])).1,
      (prices.foldl (arbStep buy sell) (b, [])).2,
      congrArg Except.ok Prod.mk.eta.symm, ?_, ?_, ?_, ?_, ?_⟩
    · exact arbFold_power_curve_length buy sell prices (b, [])
    · exact arbFold_soc_curve_length buy sell prices (b, [])
    · exact arbFold_energy_curve_length buy sell prices (b, [])
    · exact arbFold_datetime_curve_length buy sell prices (b, [])
    · rw [arbFold_rows_length buy sell prices (b, [])]
      simp
  · intro st p
    refine ⟨?_, ?_, ?_⟩
    · intro hp
      unfold arbStep
      rw [if_pos hp]
    · intro hp hs
      unfold arbStep
      rw [if_neg hp, if_pos hs]
    · intro hp hs
      unfold arbStep
      rw [if_neg hp, if_neg hs]

theorem C6_witness :
    ∃ bf rows,
      Applications.arbitrage exB [10, 100, 50] 20 80 = Except.ok (bf, rows) ∧
      rows.length = 2 := by
  obtain ⟨bf, rows, heq, hp, hs, he, hd, hr⟩ :=
    (C6_arbitrage exB [10, 100, 50] 20 80).2.2.1 (by norm_num)
  refine ⟨bf, rows, heq, ?_⟩
  rw [hr]
  norm_num [List.countP, List.countP.go]

/-- C7 (counterexample): a 1 kW / 1 kWh battery shaving a 10 kW load to a
5 kW limit leaves a new load of 9 kW, above the limit — yet the run emits no
warning at all (the warning log stays empty), refuting the claimed post-hoc
`ObjectiveNotMet` advisory. -/
theorem C7_counterexample :
    5 < listMax (Applications.peakshaving weakB [10] 5).2.new_loadcurve ∧
    (Applications.peakshaving weakB [10] 5).1.warning_log = [] := by
  constructor
  · norm_num [Applications.peakshaving, psStep, weakB, Battery.init,
      Battery.discharge_with_power, Battery.discharge_with_energy, lastD, listMax,
      Battery.nextDatetime, min_def]
  · norm_num [Applications.peakshaving, psStep, weakB, Battery.init,
      Battery.discharge_with_power, Battery.discharge_with_energy, lastD,
      Battery.nextDatetime, min_def]

/-- C7 (amended): `Applications.peakshaving` performs no post-hoc check of
the new load curve: it never signals a warning (its inner engine calls run
with warnings off and it prints nothing itself), raises no exception, and
always returns the result table. -/
theorem C7_no_warning (b : Battery) (l : List ℚ) (limit : ℚ) :
    ∃ bf table, Applications.peakshaving b l limit = (bf, table) ∧
      bf.warning_log = b.warning_log := by
  refine ⟨(Applications.peakshaving b l limit).1, (Applications.peakshaving b l limit).2,
    Prod.mk.eta.symm, ?_⟩
  show (Applications.peakshaving b l limit).1.warning_log = b.warning_log
  unfold Applications.peakshaving
  exact psFold_warning_log limit l _

/-- C9: dimensioning for peak shaving derives the power rating
`ceil(max(loadcurve) - peakLimit)`; probes from a reset battery with soc
forced to 1.0 and the sentinel capacity 1e6; sizes the capacity as
`ceil((1 - minSoc) * 1e6)` from the minimum recorded soc of the probing
run; and finally resets and re-runs peak shaving with the final ratings, so
the returned battery (whose history and EFC the summary reports) carries
the final power and capacity. -/
theorem C9_dimensioning (b : Battery) (l : List ℚ) (limit : ℚ) (hl : l ≠ []) :
    ∀ neededPower probe neededCap final,
      neededPower = ((⌈listMax l - limit⌉ : ℤ) : ℚ) →
      probe = Applications.peakshaving
        { b.reset with soc := 1, power := neededPower, capacity := 1000000 } l limit →
      neededCap = ((⌈(1 - listMin probe.2.soc_list) * 1000000⌉ : ℤ) : ℚ) →
      final = Applications.peakshaving ({ probe.1 with capacity := neededCap }).reset l limit →
      Dimensioning.peakshaving b l limit =
        (final.1, { power := neededPower, capacity := neededCap, efc := final.1.get_efc }) ∧
      final.1.power = neededPower ∧
      final.1.capacity = neededCap := by
  intro neededPower probe neededCap final h1 h2 h3 h4
  subst h1; subst h2; subst h3; subst h4
  refine ⟨rfl, ?_, ?_⟩
  · rw [peakshaving_battery_power]
    simp [Battery.reset, peakshaving_battery_power]
  · rw [peakshaving_battery_capacity]
    simp [Battery.reset]

theorem C9_witness :
    (([10, 0] : List ℚ) ≠ []) ∧ (Dimensioning.peakshaving exB [10, 0] 5).2.power = 5 := by
  refine ⟨by simp, ?_⟩
  have h := (C9_dimensioning exB [10, 0] 5 (by simp)) _ _ _ _ rfl rfl rfl rfl
  rw [h.1]
  show ((⌈listMax [10, 0] - 5⌉ : ℤ) : ℚ) = 5
  norm_num [listMax, max_def]

/-- C10: `Applications.peakshaving` overwrites the state of charge with 1.0
before its first engine call, so its whole result is the same whatever soc
the battery had on entry, and (for a non-empty load curve) the first
recorded soc value is 1.0. -/
theorem C10_peakshaving_ignores_soc (b : Battery) (s : ℚ) (l : List ℚ) (limit : ℚ) :
    Applications.peakshaving { b with soc := s } l limit =
      Applications.peakshaving b l limit ∧
    (l ≠ [] → (Applications.peakshaving b l limit).2.soc_list.head? = some 1) := by
  constructor
  · rfl
  · intro hl
    obtain ⟨x, xs, rfl⟩ : ∃ x xs, l = x :: xs := by
      cases l with
      | nil => exact absurd rfl hl
      | cons x xs => exact ⟨x, xs, rfl⟩
    show ((x :: xs).foldl (psStep limit) ({ b with soc := 1 }, [], [], [])).2.2.2.head?
      = some 1
    rw [List.foldl_cons]
    obtain ⟨rest, hrest⟩ :=
      psFold_socs_append limit xs (psStep limit ({ b with soc := 1 }, [], [], []) x)
    rw [hrest, psStep_recorded_soc]
    simp

theorem C10_witness :
    (Applications.peakshaving exB [10] 5).2.soc_list.head? = some 1 :=
  (C10_peakshaving_ignores_soc exB (1/2) [10] 5).2 (by simp)

end BatterySim
